import Mathlib

/-
Verification of the `ecsevent` span-monitor component (span_monitor.go).

The Go code keeps, per `SpanMonitor`, a field map (`map[string]interface{}`),
an append-only buffer of sub-events (`[]map[string]interface{}`), an optional
opentracing span handle, a parent `Monitor`, and a `suppressed` flag, all
guarded by one RWMutex.  We embed the sequential behaviour: each exported
method becomes a pure function on a `SpanMonitor` state, and the two
externally visible side effects (`sm.span.FinishWithOptions` and
`sm.parent.Record`) become entries of an emitted `Effect` list.

Go maps are embedded as association lists written through `setField`
(replace the existing binding for a key, else append), which is how every
reachable field map in the code is built: key lookup is `lookupField`.
Dynamically typed map values (`interface{}`) are embedded by `Value`, which
covers the shapes the code itself stores: opaque leaf values (modelled by
strings) and the sub-event list nested at `Finish` time.
-/

set_option autoImplicit false

namespace Ecsevent

/-- A dynamically typed field value (`interface{}` in the source): either an
opaque leaf value or a list of sub-event field maps, the one structured shape
the span monitor itself ever stores (`sm.fields[sm.SubeventsField] = sm.subevents`). -/
inductive Value where
  | vstr : String → Value
  | vevents : List (List (String × Value)) → Value

/-- A Go `map[string]interface{}`, embedded as an association list. -/
abbrev FieldMap := List (String × Value)

/-- Go map read `m[k]`: the value bound to `k`, if any. -/
def lookupField : FieldMap → String → Option Value
  | [], _ => none
  | (k', v') :: rest, k => if k' = k then some v' else lookupField rest k

/-- Go map write `m[k] = v`: replace the binding for `k` if present,
otherwise append it. -/
def setField : FieldMap → String → Value → FieldMap
  | [], k, v => [(k, v)]
  | (k', v') :: rest, k, v =>
    if k' = k then (k', v) :: rest else (k', v') :: setField rest k v

/-- The Go merge loop `for k, v := range upd { base[k] = v }`. -/
def mergeFields (base upd : FieldMap) : FieldMap :=
  upd.foldl (fun acc kv => setField acc kv.1 kv.2) base

/-- The keys of a field map. -/
def fieldKeys (m : FieldMap) : List String := m.map Prod.fst

/-- Modelled from the spec: the constant `FieldEventSubevents` (the default
sub-events key installed by `NewSpanMonitorFromParent`) is declared outside
the provided source file; the spec names the default sub-events key
`"subevents"`. -/
def FieldEventSubevents : String := "subevents"

/-- The state of a `SpanMonitor` (span_monitor.go lines 12-31).  The
opentracing span handle and the parent monitor are external collaborators:
we record only whether a span handle is attached (`hasSpan`), and calls out
to the two collaborators are emitted as `Effect`s.  `fields` is an `Option`
to mirror the Go distinction between a nil map and an empty map
(`NewSpanMonitorFromParent` always installs a non-nil map). -/
structure SpanMonitor where
  SubeventsField : String
  subevents : List FieldMap
  fields : Option FieldMap
  hasSpan : Bool
  suppressed : Bool

/-- An externally visible side effect of a span-monitor operation. -/
inductive Effect where
  | spanFinish : Effect
  | parentRecord : FieldMap → Effect

/-- `NewSpanMonitorFromParent` (lines 51-64): empty non-nil field map, empty
sub-event buffer, default sub-events key; `withSpan` records whether the
`WithOpenTracingSpan` option was supplied.  The parent reference itself is
kept by the external tree (see `NodeRef`); here a call `parent.Record(f)`
is emitted as `Effect.parentRecord f`. -/
def NewSpanMonitorFromParent (withSpan : Bool) : SpanMonitor :=
  { SubeventsField := FieldEventSubevents
    subevents := []
    fields := some []
    hasSpan := withSpan
    suppressed := false }

/-- `Fields()` (lines 66-68): returns the local field map. -/
def SpanMonitor.Fields (sm : SpanMonitor) : Option FieldMap :=
  sm.fields

/-- `UpdateFields` (lines 102-111): lazily initialize the field map if nil,
then merge the argument into it, overwrite on key collision. -/
def SpanMonitor.UpdateFields (sm : SpanMonitor) (fields : FieldMap) : SpanMonitor :=
  let base := match sm.fields with | none => ([] : FieldMap) | some f => f
  { sm with fields := some (mergeFields base fields) }

/-- `Suppress` (lines 114-118): set the suppressed flag. -/
def SpanMonitor.Suppress (sm : SpanMonitor) : SpanMonitor :=
  { sm with suppressed := true }

/-- `Record` (lines 121-143): lazily initialize the field map if nil, copy
the current fields into a fresh map, overlay the event (event wins on key
collision), and append the merged map to the sub-event buffer.  The fresh
copy in the source is what licenses the value semantics used here: the
buffered entry shares no state with `sm.fields`.  The suppressed check at
the end of the source body does nothing (the flush-through branch is an
unimplemented TODO), so no effect is emitted. -/
def SpanMonitor.Record (sm : SpanMonitor) (event : FieldMap) : SpanMonitor :=
  let fields0 := match sm.fields with | none => ([] : FieldMap) | some f => f
  let merged := mergeFields fields0 event
  { sm with fields := some fields0, subevents := sm.subevents ++ [merged] }

/-- `Finish` (lines 145-161): if suppressed, return with no effect at all;
otherwise finalize the opentracing span if attached, nest the sub-event
buffer into the field map under `SubeventsField` when the buffer is
non-empty, and call `parent.Record` with the resulting field map.  The
source writes `sm.fields[...]` without a nil guard: a nil field map here is
unreachable through the constructor (which installs a non-nil map and whose
absence makes the very first `sm.mu.Lock()` panic on the nil mutex), and is
embedded as writing into an empty map. -/
def SpanMonitor.Finish (sm : SpanMonitor) : SpanMonitor × List Effect :=
  if sm.suppressed then (sm, [])
  else
    let spanEffects := if sm.hasSpan then [Effect.spanFinish] else []
    let base := match sm.fields with | none => ([] : FieldMap) | some f => f
    let fields1 :=
      if sm.subevents.length > 0
      then setField base sm.SubeventsField (Value.vevents sm.subevents)
      else base
    ({ sm with fields := some fields1 }, spanEffects ++ [Effect.parentRecord fields1])

/-- One sequential call on a span monitor, for stating trace-level claims. -/
inductive Op where
  | updateFields : FieldMap → Op
  | record : FieldMap → Op
  | suppress : Op
  | finish : Op

/-- Apply one call to the monitor, yielding the new state and the emitted
effects.  `UpdateFields`, `Record` and `Suppress` contain no call into the
parent or the span handle in the source, so they emit nothing. -/
def applyOp (sm : SpanMonitor) : Op → SpanMonitor × List Effect
  | Op.updateFields f => (sm.UpdateFields f, [])
  | Op.record e => (sm.Record e, [])
  | Op.suppress => (sm.Suppress, [])
  | Op.finish => sm.Finish

/-- Run a sequence of calls, accumulating emitted effects in order. -/
def runOps (sm : SpanMonitor) : List Op → SpanMonitor × List Effect
  | [] => (sm, [])
  | op :: ops =>
    let r := applyOp sm op
    let rest := runOps r.1 ops
    (rest.1, r.2 ++ rest.2)

/-- How many `parent.Record` calls a list of effects contains. -/
def countParentRecords (fx : List Effect) : Nat :=
  (fx.filter fun e => match e with | Effect.parentRecord _ => true | _ => false).length

/-- `Record` a list of events in sequence. -/
def recordAll (sm : SpanMonitor) (es : List FieldMap) : SpanMonitor :=
  es.foldl SpanMonitor.Record sm

/-
Root resolution (`Root`, lines 75-99) walks the dynamic parent chain, which
in Go may contain cycles; we embed the tree of monitors as a graph: span
monitors are numbered, `H i` is the parent reference of span monitor `i`,
and a reference is nil, a `*RootMonitor` (identified by a number), a
`*SpanMonitor`, or some other `Monitor` implementation (`other`, which also
covers typed-nil `*RootMonitor`/`*SpanMonitor` values: both fail the
`ok && m != nil` tests and fall through to the `break`). -/

/-- A `Monitor` interface reference as seen by `Root`'s type switch. -/
inductive NodeRef where
  | nil : NodeRef
  | root : Nat → NodeRef
  | other : NodeRef
  | span : Nat → NodeRef

/-- `maxDepth` (line 77). -/
def maxDepth : Nat := 100

/-- The loop of `Root` (lines 81-99): `m` is the current monitor, `depth`
the counter before the iteration's `depth++`. -/
def rootLoop (H : Nat → NodeRef) (m : NodeRef) (depth : Nat) : Option Nat :=
  match m with
  | NodeRef.nil => none
  | NodeRef.root i => if depth + 1 > maxDepth then none else some i
  | NodeRef.other => none
  | NodeRef.span i =>
    if h : depth + 1 > maxDepth then none
    else rootLoop H (H i) (depth + 1)
termination_by maxDepth + 1 - depth
decreasing_by simp only [gt_iff_lt, not_lt] at h; omega

/-- `Root()` for span monitor `i`: start at `sm.Parent()` with `depth = 0`. -/
def Root (H : Nat → NodeRef) (i : Nat) : Option Nat :=
  rootLoop H (H i) 0

/-- One hop up the parent chain; non-span references are absorbing. -/
def parentStep (H : Nat → NodeRef) : NodeRef → NodeRef
  | NodeRef.span i => H i
  | m => m

/-- The parent chain: `chain H m n` is the reference reached from `m` after
`n` hops. -/
def chain (H : Nat → NodeRef) (m : NodeRef) : Nat → NodeRef
  | 0 => m
  | n + 1 => chain H (parentStep H m) n

/-- Fuel-indexed restatement of `rootLoop` (fuel = remaining iterations),
used to characterize it. -/
def rootSpec (H : Nat → NodeRef) : NodeRef → Nat → Option Nat
  | _, 0 => none
  | NodeRef.nil, _ + 1 => none
  | NodeRef.root i, _ + 1 => some i
  | NodeRef.other, _ + 1 => none
  | NodeRef.span i, f + 1 => rootSpec H (H i) f

/-- Left-biased choice: the first value when present, otherwise the second.
`orFirst (lookupField upd k) (lookupField base k)` is the lookup a Go map
merged from `base` and `upd` would answer. -/
def orFirst (a b : Option Value) : Option Value :=
  match a with
  | some v => some v
  | none => b

/-- The last binding of `k` in `m` (the binding a Go map built by inserting
the entries of `m` left to right would keep). -/
def lookupLast (m : FieldMap) (k : String) : Option Value :=
  match m with
  | [] => none
  | (k', v') :: rest => orFirst (lookupLast rest k) (if k' = k then some v' else none)

theorem orFirst_none_left (b : Option Value) : orFirst none b = b := rfl

theorem orFirst_some (v : Value) (b : Option Value) : orFirst (some v) b = some v := rfl

theorem orFirst_none_right (a : Option Value) : orFirst a none = a := by
  cases a <;> rfl

theorem lookupField_setField (m : FieldMap) (k' k : String) (v : Value) :
    lookupField (setField m k' v) k = if k' = k then some v else lookupField m k := by
  induction m with
  | nil => simp [setField, lookupField]
  | cons kv rest ih =>
    obtain ⟨a, b⟩ := kv
    by_cases hak : a = k'
    · subst hak
      by_cases hk : a = k <;> simp [setField, lookupField, hk]
    · by_cases hk : a = k
      · subst hk
        have : ¬ (k' = a) := fun h => hak h.symm
        simp [setField, lookupField, hak, this]
      · simp [setField, lookupField, hak, hk, ih]

theorem mergeFields_nil (base : FieldMap) : mergeFields base [] = base := rfl

theorem mergeFields_cons (base : FieldMap) (k : String) (v : Value) (rest : FieldMap) :
    mergeFields base ((k, v) :: rest) = mergeFields (setField base k v) rest := rfl

theorem lookupField_mergeFields (base upd : FieldMap) (k : String) :
    lookupField (mergeFields base upd) k
      = orFirst (lookupLast upd k) (lookupField base k) := by
  induction upd generalizing base with
  | nil => simp [mergeFields, lookupLast, orFirst]
  | cons kv rest ih =>
    obtain ⟨k', v'⟩ := kv
    rw [mergeFields_cons, ih, lookupField_setField]
    simp only [lookupLast]
    cases h : lookupLast rest k with
    | some w => simp [orFirst]
    | none =>
      by_cases hk : k' = k <;> simp [orFirst, hk]

theorem lookupLast_eq_none_of_not_mem (m : FieldMap) (k : String)
    (h : k ∉ fieldKeys m) : lookupLast m k = none := by
  induction m with
  | nil => rfl
  | cons kv rest ih =>
    obtain ⟨a, b⟩ := kv
    simp only [fieldKeys, List.map_cons, List.mem_cons] at h
    push_neg at h
    have hak : ¬ (a = k) := fun hh => h.1 hh.symm
    simp [lookupLast, ih (by simpa [fieldKeys] using h.2), hak, orFirst]

theorem lookupLast_eq_lookupField (m : FieldMap) (k : String)
    (h : (fieldKeys m).Nodup) : lookupLast m k = lookupField m k := by
  induction m with
  | nil => rfl
  | cons kv rest ih =>
    obtain ⟨a, b⟩ := kv
    simp only [fieldKeys, List.map_cons, List.nodup_cons] at h
    by_cases hak : a = k
    · subst hak
      have : lookupLast rest a = none :=
        lookupLast_eq_none_of_not_mem rest a (by simpa [fieldKeys] using h.1)
      simp [lookupLast, lookupField, this, orFirst]
    · simp [lookupLast, lookupField, hak, orFirst_none_right,
        ih (by simpa [fieldKeys] using h.2)]

theorem lookupField_mergeFields_nodup (base upd : FieldMap) (k : String)
    (h : (fieldKeys upd).Nodup) :
    lookupField (mergeFields base upd) k
      = orFirst (lookupField upd k) (lookupField base k) := by
  rw [lookupField_mergeFields, lookupLast_eq_lookupField upd k h]

theorem Record_subevents (sm : SpanMonitor) (F E : FieldMap) (h : sm.fields = some F) :
    (sm.Record E).subevents = sm.subevents ++ [mergeFields F E] := by
  simp [SpanMonitor.Record, h]

theorem Record_fields (sm : SpanMonitor) (F E : FieldMap) (h : sm.fields = some F) :
    (sm.Record E).fields = some F := by
  simp [SpanMonitor.Record, h]

theorem UpdateFields_subevents (sm : SpanMonitor) (G : FieldMap) :
    (sm.UpdateFields G).subevents = sm.subevents := rfl

theorem Suppress_subevents (sm : SpanMonitor) :
    (sm.Suppress).subevents = sm.subevents := rfl

theorem recordAll_cons (sm : SpanMonitor) (e : FieldMap) (es : List FieldMap) :
    recordAll sm (e :: es) = recordAll (sm.Record e) es := rfl

theorem recordAll_spec (sm : SpanMonitor) (F : FieldMap) (es : List FieldMap)
    (h : sm.fields = some F) :
    (recordAll sm es).fields = some F ∧
      (recordAll sm es).subevents
        = sm.subevents ++ es.map (fun e => mergeFields F e) := by
  induction es generalizing sm with
  | nil => simpa [recordAll] using h
  | cons e rest ih =>
    rw [recordAll_cons]
    have hf : (sm.Record e).fields = some F := Record_fields sm F e h
    obtain ⟨h1, h2⟩ := ih (sm.Record e) hf
    refine ⟨h1, ?_⟩
    rw [h2, Record_subevents sm F e h]
    simp

theorem countParentRecords_nil : countParentRecords [] = 0 := rfl

theorem countParentRecords_append (a b : List Effect) :
    countParentRecords (a ++ b) = countParentRecords a + countParentRecords b := by
  simp [countParentRecords, List.filter_append]

theorem countParentRecords_Finish (sm : SpanMonitor) :
    countParentRecords (sm.Finish).2 = if sm.suppressed then 0 else 1 := by
  by_cases h : sm.suppressed = true
  · simp [SpanMonitor.Finish, h, countParentRecords]
  · have h' : sm.suppressed = false := by
      cases hb : sm.suppressed
      · rfl
      · exact absurd hb h
    cases hs : sm.hasSpan <;>
      simp [SpanMonitor.Finish, h', hs, countParentRecords]

theorem applyOp_effects_of_ne_finish (sm : SpanMonitor) (op : Op)
    (h : op ≠ Op.finish) : (applyOp sm op).2 = [] := by
  cases op with
  | updateFields f => rfl
  | record e => rfl
  | suppress => rfl
  | finish => exact absurd rfl h

theorem runOps_cons (sm : SpanMonitor) (op : Op) (ops : List Op) :
    runOps sm (op :: ops)
      = ((runOps (applyOp sm op).1 ops).1,
         (applyOp sm op).2 ++ (runOps (applyOp sm op).1 ops).2) := rfl

theorem runOps_effects_of_no_finish (sm : SpanMonitor) (ops : List Op)
    (h : Op.finish ∉ ops) : (runOps sm ops).2 = [] := by
  induction ops generalizing sm with
  | nil => rfl
  | cons op rest ih =>
    have hop : op ≠ Op.finish := fun he => h (he ▸ List.mem_cons_self op rest)
    have hrest : Op.finish ∉ rest := fun hm => h (List.mem_cons_of_mem op hm)
    rw [runOps_cons, applyOp_effects_of_ne_finish sm op hop, ih _ hrest]
    rfl

theorem runOps_append (sm : SpanMonitor) (l1 l2 : List Op) :
    runOps sm (l1 ++ l2)
      = ((runOps (runOps sm l1).1 l2).1,
         (runOps sm l1).2 ++ (runOps (runOps sm l1).1 l2).2) := by
  induction l1 generalizing sm with
  | nil => rfl
  | cons op rest ih =>
    simp only [List.cons_append, runOps_cons, ih, List.append_assoc]

theorem chain_zero (H : Nat → NodeRef) (m : NodeRef) : chain H m 0 = m := rfl

theorem chain_succ (H : Nat → NodeRef) (m : NodeRef) (n : Nat) :
    chain H m (n + 1) = chain H (parentStep H m) n := rfl

theorem chain_nil (H : Nat → NodeRef) (n : Nat) :
    chain H NodeRef.nil n = NodeRef.nil := by
  induction n with
  | zero => rfl
  | succ n ih => rw [chain_succ]; exact ih

theorem chain_root (H : Nat → NodeRef) (r n : Nat) :
    chain H (NodeRef.root r) n = NodeRef.root r := by
  induction n with
  | zero => rfl
  | succ n ih => rw [chain_succ]; exact ih

theorem chain_other (H : Nat → NodeRef) (n : Nat) :
    chain H NodeRef.other n = NodeRef.other := by
  induction n with
  | zero => rfl
  | succ n ih => rw [chain_succ]; exact ih

theorem chain_span (H : Nat → NodeRef) (s n : Nat) :
    chain H (NodeRef.span s) (n + 1) = chain H (H s) n := rfl

theorem rootLoop_eq_rootSpec (H : Nat → NodeRef) (f : Nat) :
    ∀ (m : NodeRef) (d : Nat), d + f = maxDepth →
      rootLoop H m d = rootSpec H m f := by
  induction f with
  | zero =>
    intro m d hd
    have hd' : d = maxDepth := by omega
    rw [rootLoop.eq_def]
    cases m with
    | nil => rfl
    | root i => simp [rootSpec, hd']
    | other => rfl
    | span i => simp [rootSpec, hd']
  | succ f ih =>
    intro m d hd
    have hguard : ¬ (d + 1 > maxDepth) := by omega
    rw [rootLoop.eq_def]
    cases m with
    | nil => rfl
    | root i => simp [rootSpec, hguard]
    | other => rfl
    | span i =>
      simp only [hguard, dite_false, rootSpec]
      exact ih (H i) (d + 1) (by omega)

theorem rootSpec_some_iff (H : Nat → NodeRef) (f : Nat) :
    ∀ (m : NodeRef) (r : Nat),
      rootSpec H m f = some r ↔
        ∃ n, n < f ∧ chain H m n = NodeRef.root r ∧
          ∀ j, j < n → ∃ s, chain H m j = NodeRef.span s := by
  induction f with
  | zero =>
    intro m r
    simp [rootSpec]
  | succ f ih =>
    intro m r
    cases m with
    | nil =>
      simp only [rootSpec]
      constructor
      · intro h; exact absurd h (by simp)
      · rintro ⟨n, -, hroot, hspan⟩
        cases n with
        | zero => rw [chain_zero] at hroot; exact absurd hroot (by simp)
        | succ n =>
          obtain ⟨s, hs⟩ := hspan 0 (Nat.succ_pos n)
          rw [chain_zero] at hs
          exact absurd hs (by simp)
    | root r' =>
      simp only [rootSpec]
      constructor
      · intro h
        refine ⟨0, Nat.succ_pos f, ?_, by omega⟩
        rw [chain_zero]
        have : r' = r := by simpa using h
        rw [this]
      · rintro ⟨n, -, hroot, hspan⟩
        cases n with
        | zero =>
          rw [chain_zero] at hroot
          cases hroot
          rfl
        | succ n =>
          obtain ⟨s, hs⟩ := hspan 0 (Nat.succ_pos n)
          rw [chain_zero] at hs
          exact absurd hs (by simp)
    | other =>
      simp only [rootSpec]
      constructor
      · intro h; exact absurd h (by simp)
      · rintro ⟨n, -, hroot, hspan⟩
        cases n with
        | zero => rw [chain_zero] at hroot; exact absurd hroot (by simp)
        | succ n =>
          obtain ⟨s, hs⟩ := hspan 0 (Nat.succ_pos n)
          rw [chain_zero] at hs
          exact absurd hs (by simp)
    | span s =>
      simp only [rootSpec]
      rw [ih (H s) r]
      constructor
      · rintro ⟨n, hn, hroot, hspan⟩
        refine ⟨n + 1, Nat.succ_lt_succ hn, ?_, ?_⟩
        · rw [chain_span]; exact hroot
        · intro j hj
          cases j with
          | zero => exact ⟨s, rfl⟩
          | succ j =>
            rw [chain_span]
            exact hspan j (by omega)
      · rintro ⟨n, hn, hroot, hspan⟩
        cases n with
        | zero =>
          rw [chain_zero] at hroot
          exact absurd hroot (by simp)
        | succ n =>
          rw [chain_span] at hroot
          refine ⟨n, by omega, hroot, ?_⟩
          intro j hj
          obtain ⟨t, ht⟩ := hspan (j + 1) (by omega)
          rw [chain_span] at ht
          exact ⟨t, ht⟩

theorem Root_eq_rootSpec (H : Nat → NodeRef) (i : Nat) :
    Root H i = rootSpec H (H i) maxDepth :=
  rootLoop_eq_rootSpec H maxDepth (H i) 0 (by omega)

theorem lookupField_setField_self (m : FieldMap) (k : String) (v : Value) :
    lookupField (setField m k v) k = some v := by
  rw [lookupField_setField]; simp

theorem Finish_effects_of_empty (sm : SpanMonitor) (F : FieldMap)
    (hs : sm.suppressed = false) (hF : sm.fields = some F)
    (he : sm.subevents = []) :
    (sm.Finish).2
      = (if sm.hasSpan then [Effect.spanFinish] else [])
          ++ [Effect.parentRecord F] := by
  simp [SpanMonitor.Finish, hs, hF, he]

theorem Finish_effects_of_nonempty (sm : SpanMonitor) (F : FieldMap)
    (hs : sm.suppressed = false) (hF : sm.fields = some F)
    (hne : sm.subevents ≠ []) :
    (sm.Finish).2
      = (if sm.hasSpan then [Effect.spanFinish] else [])
          ++ [Effect.parentRecord
                (setField F sm.SubeventsField (Value.vevents sm.subevents))] := by
  have hlen : 0 < sm.subevents.length := List.length_pos.mpr hne
  simp [SpanMonitor.Finish, hs, hF, hlen]

/-- A sample monitor mid-lifecycle: one buffered sub-event, a caller-set
binding under the sub-events key.  Used to instantiate claim theorems. -/
def smDemo : SpanMonitor :=
  { SubeventsField := FieldEventSubevents
    subevents := [[("e", Value.vstr "1")]]
    fields := some [("a", Value.vstr "1"), (FieldEventSubevents, Value.vstr "caller")]
    hasSpan := false
    suppressed := false }

/-- A sample suppressed monitor with a buffered sub-event and an attached
opentracing span. -/
def smSup : SpanMonitor :=
  { SubeventsField := FieldEventSubevents
    subevents := [[("e", Value.vstr "1")]]
    fields := some []
    hasSpan := true
    suppressed := true }

/-- C1: with a root parent and a span monitor A, after
`UpdateFields({"op":"fetch"})`, `Record({"step":"start"})`,
`Record({"step":"end"})` and `Finish()`, the parent receives exactly one
`Record` call, whose payload is `{"op":"fetch"}` plus, under A's default
sub-events key, the two buffered sub-events
`{"op":"fetch","step":"start"}` and `{"op":"fetch","step":"end"}` in order. -/
theorem scenario_root_receives_single_record :
    (runOps (NewSpanMonitorFromParent false)
      [Op.updateFields [("op", Value.vstr "fetch")],
       Op.record [("step", Value.vstr "start")],
       Op.record [("step", Value.vstr "end")],
       Op.finish]).2
    = [Effect.parentRecord
        [("op", Value.vstr "fetch"),
         (FieldEventSubevents,
          Value.vevents
            [[("op", Value.vstr "fetch"), ("step", Value.vstr "start")],
             [("op", Value.vstr "fetch"), ("step", Value.vstr "end")]])]] := rfl

/-- C2: `Record(E)` on a monitor whose current local field map is `F`
appends to the sub-event buffer exactly `F` merged with `E` (`E` wins on
key collisions), evaluated at the moment of the call, and a later
`UpdateFields` leaves every already-buffered sub-event unchanged. -/
theorem record_buffers_merged_snapshot (sm : SpanMonitor) (F E : FieldMap)
    (hF : sm.Fields = some F) (hE : (fieldKeys E).Nodup) :
    (sm.Record E).subevents = sm.subevents ++ [mergeFields F E]
    ∧ (∀ k, lookupField (mergeFields F E) k
        = orFirst (lookupField E k) (lookupField F k))
    ∧ (∀ G, ((sm.Record E).UpdateFields G).subevents = (sm.Record E).subevents) :=
  ⟨Record_subevents sm F E hF,
   fun k => lookupField_mergeFields_nodup F E k hE,
   fun G => UpdateFields_subevents (sm.Record E) G⟩

/-- C2 witness: instance of `record_buffers_merged_snapshot` on a concrete
monitor, event and subsequent update. -/
theorem record_buffers_merged_snapshot_witness :
    ((smDemo.Record [("b", Value.vstr "2")]).subevents
      = smDemo.subevents
          ++ [mergeFields [("a", Value.vstr "1"), (FieldEventSubevents, Value.vstr "caller")]
                [("b", Value.vstr "2")]])
    ∧ (lookupField
        (mergeFields [("a", Value.vstr "1"), (FieldEventSubevents, Value.vstr "caller")]
          [("b", Value.vstr "2")]) "a"
      = orFirst (lookupField [("b", Value.vstr "2")] "a")
          (lookupField [("a", Value.vstr "1"), (FieldEventSubevents, Value.vstr "caller")] "a"))
    ∧ (((smDemo.Record [("b", Value.vstr "2")]).UpdateFields [("a", Value.vstr "3")]).subevents
      = (smDemo.Record [("b", Value.vstr "2")]).subevents) :=
  have h := record_buffers_merged_snapshot smDemo
    [("a", Value.vstr "1"), (FieldEventSubevents, Value.vstr "caller")]
    [("b", Value.vstr "2")] rfl (by decide)
  ⟨h.1, h.2.1 "a", h.2.2 [("a", Value.vstr "3")]⟩

/-- C3: an unsuppressed `Finish()` emits its span-finalize effect (when a
span handle is attached) followed by exactly one `parent.Record` call: with
an empty buffer the payload is the field map unchanged (no sub-events key
injected); with a non-empty buffer the payload is the field map with the
sub-events key bound to the full ordered buffer. -/
theorem finish_forwards_fields_with_subevents (sm : SpanMonitor) (F : FieldMap)
    (hs : sm.suppressed = false) (hF : sm.fields = some F) :
    (sm.subevents = [] →
      (sm.Finish).2
        = (if sm.hasSpan then [Effect.spanFinish] else [])
            ++ [Effect.parentRecord F])
    ∧ (sm.subevents ≠ [] →
      (sm.Finish).2
        = (if sm.hasSpan then [Effect.spanFinish] else [])
            ++ [Effect.parentRecord
                  (setField F sm.SubeventsField (Value.vevents sm.subevents))]
      ∧ lookupField (setField F sm.SubeventsField (Value.vevents sm.subevents))
          sm.SubeventsField
        = some (Value.vevents sm.subevents)) :=
  ⟨fun he => Finish_effects_of_empty sm F hs hF he,
   fun hne =>
     ⟨Finish_effects_of_nonempty sm F hs hF hne,
      lookupField_setField_self F sm.SubeventsField (Value.vevents sm.subevents)⟩⟩

/-- C3 witness: instance of `finish_forwards_fields_with_subevents` on a
concrete monitor with one buffered sub-event. -/
theorem finish_forwards_fields_with_subevents_witness :
    (smDemo.Finish).2
      = (if smDemo.hasSpan then [Effect.spanFinish] else [])
          ++ [Effect.parentRecord
                (setField [("a", Value.vstr "1"), (FieldEventSubevents, Value.vstr "caller")]
                  smDemo.SubeventsField (Value.vevents smDemo.subevents))]
    ∧ lookupField
        (setField [("a", Value.vstr "1"), (FieldEventSubevents, Value.vstr "caller")]
          smDemo.SubeventsField (Value.vevents smDemo.subevents))
        smDemo.SubeventsField
      = some (Value.vevents smDemo.subevents) :=
  (finish_forwards_fields_with_subevents smDemo
    [("a", Value.vstr "1"), (FieldEventSubevents, Value.vstr "caller")]
    rfl rfl).2 (by simp [smDemo])

/-- C4: `Finish()` on a suppressed monitor is a no-op: no `parent.Record`,
no span finalize, and the monitor (fields, buffer and flags) is returned
exactly as it was, regardless of buffered content. -/
theorem suppressed_finish_is_noop (sm : SpanMonitor) (h : sm.suppressed = true) :
    sm.Finish = (sm, []) := by
  simp [SpanMonitor.Finish, h]

/-- C4 witness: instance of `suppressed_finish_is_noop` on a concrete
suppressed monitor with a buffered sub-event and an attached span. -/
theorem suppressed_finish_is_noop_witness : smSup.Finish = (smSup, []) :=
  suppressed_finish_is_noop smSup rfl

/-- C5: `Root()` of span monitor `i` yields root `r` exactly when some
position `n` of the parent chain, within the `maxDepth` bound, holds Root
Monitor `r` while every earlier position holds a Span Monitor; in
particular it is `none` when the chain first reaches a reference that is
neither a Span nor a Root Monitor, and `none` when no Root Monitor occurs
within the bound (e.g. on a parent cycle). -/
theorem root_finds_nearest_root_within_bound (H : Nat → NodeRef) (i r : Nat) :
    Root H i = some r ↔
      ∃ n, n < maxDepth ∧ chain H (H i) n = NodeRef.root r ∧
        ∀ j, j < n → ∃ s, chain H (H i) j = NodeRef.span s := by
  rw [Root_eq_rootSpec, rootSpec_some_iff]

/-- C6: starting from an empty field map, `UpdateFields(F1)` then
`UpdateFields(F2)` leaves `Fields()` holding exactly the union of `F1` and
`F2`, `F2` winning on keys present in both. -/
theorem updateFields_twice_is_union (sm : SpanMonitor) (F1 F2 : FieldMap)
    (h0 : sm.Fields = some []) (h1 : (fieldKeys F1).Nodup)
    (h2 : (fieldKeys F2).Nodup) :
    ((sm.UpdateFields F1).UpdateFields F2).Fields
        = some (mergeFields (mergeFields [] F1) F2)
    ∧ ∀ k, lookupField (mergeFields (mergeFields [] F1) F2) k
        = orFirst (lookupField F2 k) (lookupField F1 k) := by
  constructor
  · have h0' : sm.fields = some [] := h0
    simp [SpanMonitor.UpdateFields, SpanMonitor.Fields, h0']
  · intro k
    rw [lookupField_mergeFields_nodup _ F2 k h2,
      lookupField_mergeFields_nodup [] F1 k h1]
    show orFirst (lookupField F2 k)
        (orFirst (lookupField F1 k) (lookupField [] k))
      = orFirst (lookupField F2 k) (lookupField F1 k)
    rw [show lookupField [] k = none from rfl, orFirst_none_right]

/-- C6 witness: instance of `updateFields_twice_is_union` on concrete maps
with a colliding key. -/
theorem updateFields_twice_is_union_witness :
    (((NewSpanMonitorFromParent false).UpdateFields
        [("a", Value.vstr "1"), ("b", Value.vstr "2")]).UpdateFields
        [("b", Value.vstr "3")]).Fields
      = some (mergeFields
          (mergeFields [] [("a", Value.vstr "1"), ("b", Value.vstr "2")])
          [("b", Value.vstr "3")])
    ∧ lookupField
        (mergeFields
          (mergeFields [] [("a", Value.vstr "1"), ("b", Value.vstr "2")])
          [("b", Value.vstr "3")]) "b"
      = orFirst (lookupField [("b", Value.vstr "3")] "b")
          (lookupField [("a", Value.vstr "1"), ("b", Value.vstr "2")] "b") :=
  have h := updateFields_twice_is_union (NewSpanMonitorFromParent false)
    [("a", Value.vstr "1"), ("b", Value.vstr "2")] [("b", Value.vstr "3")]
    rfl (by decide) (by decide)
  ⟨h.1, h.2 "b"⟩

/-- C7: the sub-event buffer is append-only: `UpdateFields` and `Suppress`
leave it unchanged, `Record` extends it at the end by one entry, and events
recorded sequentially as `E1, ..., En` appear in the buffer as exactly
those `n` merged entries in that order. -/
theorem subevents_append_only_ordered (sm : SpanMonitor) (F : FieldMap)
    (hF : sm.fields = some F) :
    (∀ G, (sm.UpdateFields G).subevents = sm.subevents)
    ∧ ((sm.Suppress).subevents = sm.subevents)
    ∧ (∀ E, (sm.Record E).subevents = sm.subevents ++ [mergeFields F E])
    ∧ (∀ es, (recordAll sm es).subevents
        = sm.subevents ++ es.map (fun e => mergeFields F e)) :=
  ⟨fun G => UpdateFields_subevents sm G,
   Suppress_subevents sm,
   fun E => Record_subevents sm F E hF,
   fun es => (recordAll_spec sm F es hF).2⟩

/-- C7 witness: instance of `subevents_append_only_ordered` on a concrete
monitor and a two-event sequence. -/
theorem subevents_append_only_ordered_witness :
    ((smDemo.UpdateFields [("c", Value.vstr "4")]).subevents = smDemo.subevents)
    ∧ ((smDemo.Suppress).subevents = smDemo.subevents)
    ∧ ((smDemo.Record [("s", Value.vstr "1")]).subevents
        = smDemo.subevents
            ++ [mergeFields [("a", Value.vstr "1"), (FieldEventSubevents, Value.vstr "caller")]
                  [("s", Value.vstr "1")]])
    ∧ ((recordAll smDemo [[("s", Value.vstr "1")], [("s", Value.vstr "2")]]).subevents
        = smDemo.subevents
            ++ [[("s", Value.vstr "1")], [("s", Value.vstr "2")]].map
                (fun e => mergeFields
                  [("a", Value.vstr "1"), (FieldEventSubevents, Value.vstr "caller")] e)) :=
  have h := subevents_append_only_ordered smDemo
    [("a", Value.vstr "1"), (FieldEventSubevents, Value.vstr "caller")] rfl
  ⟨h.1 [("c", Value.vstr "4")], h.2.1,
   h.2.2.1 [("s", Value.vstr "1")],
   h.2.2.2 [[("s", Value.vstr "1")], [("s", Value.vstr "2")]]⟩

/-- C8 counterexample: a lifecycle that records an event, suppresses, and
ends in a single `Finish()` produces zero `parent.Record` calls, not
exactly one as the claim states. -/
theorem suppressed_lifecycle_records_nothing :
    countParentRecords (runOps (NewSpanMonitorFromParent false)
      [Op.record [("step", Value.vstr "s")], Op.suppress, Op.finish]).2 ≠ 1 := by
  decide

/-- C8 (amended): `Finish` is the only operation that invokes the parent's
`Record` — a trace without `Finish` produces zero `parent.Record` calls —
and a lifecycle ending in a single `Finish` produces exactly one
`parent.Record` call, at `Finish` time, when the monitor is not suppressed
there, and zero when it is suppressed. -/
theorem finish_sole_propagation_path (sm : SpanMonitor) (ops : List Op)
    (h : Op.finish ∉ ops) :
    countParentRecords (runOps sm ops).2 = 0
    ∧ countParentRecords (runOps sm (ops ++ [Op.finish])).2
        = (if (runOps sm ops).1.suppressed then 0 else 1) := by
  constructor
  · rw [runOps_effects_of_no_finish sm ops h]
    rfl
  · have happ := congrArg Prod.snd (runOps_append sm ops [Op.finish])
    rw [runOps_effects_of_no_finish sm ops h] at happ
    rw [happ, List.nil_append]
    show countParentRecords (runOps (runOps sm ops).1 [Op.finish]).2 = _
    simp only [runOps, applyOp, List.append_nil]
    exact countParentRecords_Finish (runOps sm ops).1

/-- C8 witness: instance of `finish_sole_propagation_path` on a concrete
unsuppressed lifecycle. -/
theorem finish_sole_propagation_path_witness :
    countParentRecords (runOps (NewSpanMonitorFromParent false)
      [Op.updateFields [("a", Value.vstr "1")], Op.record [("s", Value.vstr "1")]]).2 = 0
    ∧ countParentRecords (runOps (NewSpanMonitorFromParent false)
        ([Op.updateFields [("a", Value.vstr "1")], Op.record [("s", Value.vstr "1")]]
          ++ [Op.finish])).2
      = (if (runOps (NewSpanMonitorFromParent false)
            [Op.updateFields [("a", Value.vstr "1")],
             Op.record [("s", Value.vstr "1")]]).1.suppressed
         then 0 else 1) :=
  finish_sole_propagation_path (NewSpanMonitorFromParent false)
    [Op.updateFields [("a", Value.vstr "1")], Op.record [("s", Value.vstr "1")]]
    (by simp)

/-- C9: `Record` never modifies the monitor's own field map: `Fields()`
after `Record(E)` equals `Fields()` before it. -/
theorem record_leaves_fields_unchanged (sm : SpanMonitor) (F E : FieldMap)
    (hF : sm.fields = some F) :
    (sm.Record E).Fields = sm.Fields := by
  simp [SpanMonitor.Fields, SpanMonitor.Record, hF]

/-- C9 witness: instance of `record_leaves_fields_unchanged` on a freshly
constructed monitor. -/
theorem record_leaves_fields_unchanged_witness :
    ((NewSpanMonitorFromParent true).Record [("x", Value.vstr "1")]).Fields
      = (NewSpanMonitorFromParent true).Fields :=
  record_leaves_fields_unchanged (NewSpanMonitorFromParent true) []
    [("x", Value.vstr "1")] rfl

/-- C10: when the caller has bound a value under the monitor's sub-events
key and the buffer is non-empty, an unsuppressed `Finish()` overwrites that
binding with the buffered sub-event list in the payload forwarded to the
parent: the buffer wins over the caller-set field. -/
theorem finish_buffer_wins_over_caller_field (sm : SpanMonitor) (F : FieldMap)
    (v : Value) (hs : sm.suppressed = false) (hF : sm.fields = some F)
    (hne : sm.subevents ≠ [])
    (_hcaller : lookupField F sm.SubeventsField = some v) :
    (sm.Finish).2
      = (if sm.hasSpan then [Effect.spanFinish] else [])
          ++ [Effect.parentRecord
                (setField F sm.SubeventsField (Value.vevents sm.subevents))]
    ∧ lookupField (setField F sm.SubeventsField (Value.vevents sm.subevents))
        sm.SubeventsField
      = some (Value.vevents sm.subevents) :=
  ⟨Finish_effects_of_nonempty sm F hs hF hne,
   lookupField_setField_self F sm.SubeventsField (Value.vevents sm.subevents)⟩

/-- C10 witness: instance of `finish_buffer_wins_over_caller_field` on a
concrete monitor whose caller bound `"caller"` under the sub-events key. -/
theorem finish_buffer_wins_over_caller_field_witness :
    (smDemo.Finish).2
      = (if smDemo.hasSpan then [Effect.spanFinish] else [])
          ++ [Effect.parentRecord
                (setField [("a", Value.vstr "1"), (FieldEventSubevents, Value.vstr "caller")]
                  smDemo.SubeventsField (Value.vevents smDemo.subevents))]
    ∧ lookupField
        (setField [("a", Value.vstr "1"), (FieldEventSubevents, Value.vstr "caller")]
          smDemo.SubeventsField (Value.vevents smDemo.subevents))
        smDemo.SubeventsField
      = some (Value.vevents smDemo.subevents) :=
  finish_buffer_wins_over_caller_field smDemo
    [("a", Value.vstr "1"), (FieldEventSubevents, Value.vstr "caller")]
    (Value.vstr "caller") rfl rfl (by simp [smDemo]) rfl

end Ecsevent
